import Mathlib

/-!
Shallow embedding of the FVENS core: the numerical flux schemes of
src/anumericalflux.hpp (VanLeerFlux::get_flux, RoeFlux::get_flux) and the
spatial-discretization interface of src/aspatial.hpp.  States are 4-vectors
of conserved variables; machine doubles are modelled as real numbers, and
C library calls sqrt/fabs as Real.sqrt and abs.
-/

namespace acfd

/-- A conserved state: density, x-momentum, y-momentum, total energy
(the four entries ul->get(0) .. ul->get(3) of the source). -/
structure Cons where
  rho : ℝ
  mx : ℝ
  my : ℝ
  en : ℝ

/-- Pressure as VanLeerFlux::get_flux computes it:
pi = (g-1)*(ul->get(3) - 0.5*(pow(ul->get(1),2)+pow(ul->get(2),2))/ul->get(0)). -/
noncomputable def vlp (g : ℝ) (u : Cons) : ℝ :=
  (g - 1) * (u.en - 0.5 * (u.mx ^ 2 + u.my ^ 2) / u.rho)

/-- Speed of sound: ci = sqrt(g*pi/ul->get(0)). -/
noncomputable def sound (g : ℝ) (u : Cons) : ℝ :=
  Real.sqrt (g * vlp g u / u.rho)

/-- Normal velocity: vni = (ul->get(1)*nx + ul->get(2)*ny)/ul->get(0). -/
noncomputable def vn (u : Cons) (nx ny : ℝ) : ℝ :=
  (u.mx * nx + u.my * ny) / u.rho

/-- Normal Mach number: Mni = vni/ci. -/
noncomputable def Mn (g : ℝ) (u : Cons) (nx ny : ℝ) : ℝ :=
  vn u nx ny / sound g u

/-- The one-sided physical Euler flux of a state projected on the normal,
exactly as the supersonic branch of VanLeerFlux::get_flux writes it:
(rho*vni, vni*m_x + p*nx, vni*m_y + p*ny, vni*(E + p)). -/
noncomputable def physFluxVL (g : ℝ) (u : Cons) (nx ny : ℝ) : Fin 4 → ℝ :=
  ![u.rho * vn u nx ny,
    vn u nx ny * u.mx + vlp g u * nx,
    vn u nx ny * u.my + vlp g u * ny,
    vn u nx ny * (u.en + vlp g u)]

/-- The subsonic branch of the left (plus) Van Leer split flux
(lines 103-110 of the source). -/
noncomputable def fiplusSub (g : ℝ) (u : Cons) (nx ny : ℝ) : Fin 4 → ℝ :=
  let vmags := (u.mx / u.rho) ^ 2 + (u.my / u.rho) ^ 2
  let f0 := u.rho * sound g u * (Mn g u nx ny + 1) ^ 2 / 4
  ![f0,
    f0 * (u.mx / u.rho + nx * (2 * sound g u - vn u nx ny) / g),
    f0 * (u.my / u.rho + ny * (2 * sound g u - vn u nx ny) / g),
    f0 * ((vmags - vn u nx ny ^ 2) / 2 +
      ((g - 1) * vn u nx ny + 2 * sound g u) ^ 2 / (2 * (g ^ 2 - 1)))]

/-- The subsonic branch of the right (minus) Van Leer split flux
(lines 120-127 of the source). -/
noncomputable def fjminusSub (g : ℝ) (u : Cons) (nx ny : ℝ) : Fin 4 → ℝ :=
  let vmags := (u.mx / u.rho) ^ 2 + (u.my / u.rho) ^ 2
  let f0 := -(u.rho * sound g u * (Mn g u nx ny - 1) ^ 2 / 4)
  ![f0,
    f0 * (u.mx / u.rho + nx * (-(2 * sound g u) - vn u nx ny) / g),
    f0 * (u.my / u.rho + ny * (-(2 * sound g u) - vn u nx ny) / g),
    f0 * ((vmags - vn u nx ny ^ 2) / 2 +
      ((g - 1) * vn u nx ny - 2 * sound g u) ^ 2 / (2 * (g ^ 2 - 1)))]

/-- Left (plus) Van Leer split flux: zero if Mni < -1, the one-sided physical
flux if Mni > 1, the subsonic polynomial otherwise (lines 95-110). -/
noncomputable def fiplus (g : ℝ) (u : Cons) (nx ny : ℝ) : Fin 4 → ℝ :=
  if Mn g u nx ny < -1 then ![0, 0, 0, 0]
  else if 1 < Mn g u nx ny then physFluxVL g u nx ny
  else fiplusSub g u nx ny

/-- Right (minus) Van Leer split flux: zero if Mnj > 1, the one-sided physical
flux if Mnj < -1, the subsonic polynomial otherwise (lines 112-127). -/
noncomputable def fjminus (g : ℝ) (u : Cons) (nx ny : ℝ) : Fin 4 → ℝ :=
  if 1 < Mn g u nx ny then ![0, 0, 0, 0]
  else if Mn g u nx ny < -1 then physFluxVL g u nx ny
  else fjminusSub g u nx ny

/-- VanLeerFlux::get_flux: flux(i) = fiplus(i) + fjminus(i) (lines 130-131). -/
noncomputable def vanLeerFlux (g : ℝ) (ul ur : Cons) (nx ny : ℝ) : Fin 4 → ℝ :=
  fun i => fiplus g ul nx ny i + fjminus g ur nx ny i

/-- RoeFlux::get_flux velocity component: vxi = ul->get(1)/ul->get(0). -/
noncomputable def roe_vx (u : Cons) : ℝ := u.mx / u.rho

/-- RoeFlux::get_flux velocity component: vyi = ul->get(2)/ul->get(0). -/
noncomputable def roe_vy (u : Cons) : ℝ := u.my / u.rho

/-- RoeFlux::get_flux normal velocity: vni = vxi*n[0] + vyi*n[1]. -/
noncomputable def roe_vn (u : Cons) (nx ny : ℝ) : ℝ := roe_vx u * nx + roe_vy u * ny

/-- RoeFlux::get_flux pressure: pi = (g-1.0)*(ul->get(3) - 0.5*ul->get(0)*vmag2i). -/
noncomputable def roe_p (g : ℝ) (u : Cons) : ℝ :=
  (g - 1) * (u.en - 0.5 * u.rho * (roe_vx u ^ 2 + roe_vy u ^ 2))

/-- RoeFlux::get_flux speed of sound: ci = sqrt(g*pi/ul->get(0)). -/
noncomputable def roe_c (g : ℝ) (u : Cons) : ℝ := Real.sqrt (g * roe_p g u / u.rho)

/-- RoeFlux::get_flux enthalpy: Hi = (ul->get(3) + pi)/ul->get(0). -/
noncomputable def roe_H (g : ℝ) (u : Cons) : ℝ := (u.en + roe_p g u) / u.rho

/-- Roe average weight: Rij = sqrt(ur->get(0)/ul->get(0)). -/
noncomputable def roe_Rfac (ul ur : Cons) : ℝ := Real.sqrt (ur.rho / ul.rho)

/-- Roe-averaged density: rhoij = Rij*ul->get(0). -/
noncomputable def roe_rhoij (ul ur : Cons) : ℝ := roe_Rfac ul ur * ul.rho

/-- Roe-averaged x-velocity: vxij = (Rij*vxj + vxi)/(Rij + 1.0). -/
noncomputable def roe_vxij (ul ur : Cons) : ℝ :=
  (roe_Rfac ul ur * roe_vx ur + roe_vx ul) / (roe_Rfac ul ur + 1)

/-- Roe-averaged y-velocity: vyij = (Rij*vyj + vyi)/(Rij + 1.0). -/
noncomputable def roe_vyij (ul ur : Cons) : ℝ :=
  (roe_Rfac ul ur * roe_vy ur + roe_vy ul) / (roe_Rfac ul ur + 1)

/-- Roe-averaged enthalpy: Hij = (Rij*Hj + Hi)/(Rij + 1.0). -/
noncomputable def roe_Hij (g : ℝ) (ul ur : Cons) : ℝ :=
  (roe_Rfac ul ur * roe_H g ur + roe_H g ul) / (roe_Rfac ul ur + 1)

/-- Roe-averaged squared speed: vm2ij = vxij*vxij + vyij*vyij. -/
noncomputable def roe_vm2ij (ul ur : Cons) : ℝ := roe_vxij ul ur ^ 2 + roe_vyij ul ur ^ 2

/-- Roe-averaged normal velocity: vnij = vxij*n[0] + vyij*n[1]. -/
noncomputable def roe_vnij (ul ur : Cons) (nx ny : ℝ) : ℝ :=
  roe_vxij ul ur * nx + roe_vyij ul ur * ny

/-- Roe-averaged speed of sound: cij = sqrt((g-1.0)*(Hij - vm2ij*0.5)). -/
noncomputable def roe_cij (g : ℝ) (ul ur : Cons) : ℝ :=
  Real.sqrt ((g - 1) * (roe_Hij g ul ur - roe_vm2ij ul ur * 0.5))

/-- Eigenvalue l[0] = l[1] = vnij before the entropy fix. -/
noncomputable def roe_l0 (ul ur : Cons) (nx ny : ℝ) : ℝ := roe_vnij ul ur nx ny

/-- Eigenvalue l[2] = vnij + cij before the entropy fix. -/
noncomputable def roe_l2 (g : ℝ) (ul ur : Cons) (nx ny : ℝ) : ℝ :=
  roe_vnij ul ur nx ny + roe_cij g ul ur

/-- Eigenvalue l[3] = vnij - cij before the entropy fix. -/
noncomputable def roe_l3 (g : ℝ) (ul ur : Cons) (nx ny : ℝ) : ℝ :=
  roe_vnij ul ur nx ny - roe_cij g ul ur

/-- Entropy-fix threshold for the l[0], l[1] pair (source lines 183-185):
eps starts at 0, is raised to l[0]-vni if that is larger, then to vnj-l[0]
if that is larger still. -/
noncomputable def roe_eps01 (ul ur : Cons) (nx ny : ℝ) : ℝ :=
  let e1 := if (0 : ℝ) < roe_l0 ul ur nx ny - roe_vn ul nx ny then
    roe_l0 ul ur nx ny - roe_vn ul nx ny else 0
  if e1 < roe_vn ur nx ny - roe_l0 ul ur nx ny then
    roe_vn ur nx ny - roe_l0 ul ur nx ny else e1

/-- Entropy-fixed l[0] (source line 186): if fabs(l[0]) < eps, l[0] = eps. -/
noncomputable def roe_l0fix (ul ur : Cons) (nx ny : ℝ) : ℝ :=
  if |roe_l0 ul ur nx ny| < roe_eps01 ul ur nx ny then roe_eps01 ul ur nx ny
  else roe_l0 ul ur nx ny

/-- Entropy-fixed l[1] (source line 187): l[1] = vnij as well, tested against
the same eps as l[0]. -/
noncomputable def roe_l1fix (ul ur : Cons) (nx ny : ℝ) : ℝ :=
  if |roe_l0 ul ur nx ny| < roe_eps01 ul ur nx ny then roe_eps01 ul ur nx ny
  else roe_l0 ul ur nx ny

/-- Entropy-fix threshold for l[2] (source lines 189-191), bounded by the
acoustic speeds vni+ci and vnj+cj. -/
noncomputable def roe_eps2 (g : ℝ) (ul ur : Cons) (nx ny : ℝ) : ℝ :=
  let e1 := if (0 : ℝ) < roe_l2 g ul ur nx ny - (roe_vn ul nx ny + roe_c g ul) then
    roe_l2 g ul ur nx ny - (roe_vn ul nx ny + roe_c g ul) else 0
  if e1 < roe_vn ur nx ny + roe_c g ur - roe_l2 g ul ur nx ny then
    roe_vn ur nx ny + roe_c g ur - roe_l2 g ul ur nx ny else e1

/-- Entropy-fixed l[2] (source line 192). -/
noncomputable def roe_l2fix (g : ℝ) (ul ur : Cons) (nx ny : ℝ) : ℝ :=
  if |roe_l2 g ul ur nx ny| < roe_eps2 g ul ur nx ny then roe_eps2 g ul ur nx ny
  else roe_l2 g ul ur nx ny

/-- Entropy-fix threshold for l[3] (source lines 194-196), bounded by the
acoustic speeds vni-ci and vnj-cj. -/
noncomputable def roe_eps3 (g : ℝ) (ul ur : Cons) (nx ny : ℝ) : ℝ :=
  let e1 := if (0 : ℝ) < roe_l3 g ul ur nx ny - (roe_vn ul nx ny - roe_c g ul) then
    roe_l3 g ul ur nx ny - (roe_vn ul nx ny - roe_c g ul) else 0
  if e1 < roe_vn ur nx ny - roe_c g ur - roe_l3 g ul ur nx ny then
    roe_vn ur nx ny - roe_c g ur - roe_l3 g ul ur nx ny else e1

/-- Entropy-fixed l[3] (source line 197). -/
noncomputable def roe_l3fix (g : ℝ) (ul ur : Cons) (nx ny : ℝ) : ℝ :=
  if |roe_l3 g ul ur nx ny| < roe_eps3 g ul ur nx ny then roe_eps3 g ul ur nx ny
  else roe_l3 g ul ur nx ny

/-- The four entropy-fixed eigenvalues as used in the flux loop. -/
noncomputable def roe_lf (g : ℝ) (ul ur : Cons) (nx ny : ℝ) : Fin 4 → ℝ :=
  ![roe_l0fix ul ur nx ny, roe_l1fix ul ur nx ny,
    roe_l2fix g ul ur nx ny, roe_l3fix g ul ur nx ny]

/-- Right eigenvector matrix r(ivar, j) (source lines 200-211), with columns
2 and 3 already scaled by rhoij/(2.0*cij) as the loop at 207-211 does. -/
noncomputable def roe_r (g : ℝ) (ul ur : Cons) (nx ny : ℝ) : Fin 4 → Fin 4 → ℝ :=
  let cij := roe_cij g ul ur
  let s := roe_rhoij ul ur / (2 * cij)
  ![![1, 0, 1 * s, 1 * s],
    ![roe_vxij ul ur, cij * ny,
      (roe_vxij ul ur + cij * nx) * s, (roe_vxij ul ur - cij * nx) * s],
    ![roe_vyij ul ur, -(cij * nx),
      (roe_vyij ul ur + cij * ny) * s, (roe_vyij ul ur - cij * ny) * s],
    ![roe_vm2ij ul ur * 0.5, cij * (roe_vxij ul ur * ny - roe_vyij ul ur * nx),
      (roe_Hij g ul ur + cij * roe_vnij ul ur nx ny) * s,
      (roe_Hij g ul ur - cij * roe_vnij ul ur nx ny) * s]]

/-- Characteristic jumps dw = R^(-1)(qR - qL) (source lines 214-218). -/
noncomputable def roe_dw (g : ℝ) (ul ur : Cons) (nx ny : ℝ) : Fin 4 → ℝ :=
  ![(ur.rho - ul.rho) - (roe_p g ur - roe_p g ul) / (roe_cij g ul ur * roe_cij g ul ur),
    (roe_vx ur - roe_vx ul) * ny - (roe_vy ur - roe_vy ul) * nx,
    roe_vn ur nx ny - roe_vn ul nx ny +
      (roe_p g ur - roe_p g ul) / (roe_rhoij ul ur * roe_cij g ul ur),
    -(roe_vn ur nx ny - roe_vn ul nx ny) +
      (roe_p g ur - roe_p g ul) / (roe_rhoij ul ur * roe_cij g ul ur)]

/-- Left one-sided flux array fi as the source leaves it (lines 221-225): only
fi[0] and fi[1] are assigned; the statements meant for fi[2] and fi[3] write
to fj[2] and fj[3] instead, so fi[2] and fi[3] are read uninitialized in the
flux loop.  The indeterminate contents are the parameters junk2, junk3. -/
noncomputable def roe_fi (g junk2 junk3 : ℝ) (ul : Cons) (nx ny : ℝ) : Fin 4 → ℝ :=
  ![ul.rho * roe_vn ul nx ny,
    ul.rho * roe_vn ul nx ny * roe_vx ul + roe_p g ul * nx,
    junk2, junk3]

/-- Right one-sided flux array fj (lines 222-225); fj[2] and fj[3] are each
assigned twice, the second (right-state) assignment being the one kept. -/
noncomputable def roe_fj (g : ℝ) (ur : Cons) (nx ny : ℝ) : Fin 4 → ℝ :=
  ![ur.rho * roe_vn ur nx ny,
    ur.rho * roe_vn ur nx ny * roe_vx ur + roe_p g ur * nx,
    ur.rho * roe_vn ur nx ny * roe_vy ur + roe_p g ur * ny,
    roe_vn ur nx ny * (ur.en + roe_p g ur)]

/-- RoeFlux::get_flux (lines 229-235):
flux(ivar) = 0.5*(fi[ivar] + fj[ivar] - sum_j fabs(l[j])*dw(j)*r(ivar,j)),
with junk2, junk3 the indeterminate values read from the uninitialized
fi[2], fi[3]. -/
noncomputable def roeFlux (g junk2 junk3 : ℝ) (ul ur : Cons) (nx ny : ℝ) : Fin 4 → ℝ :=
  fun ivar => 0.5 * (roe_fi g junk2 junk3 ul nx ny ivar + roe_fj g ur nx ny ivar -
    ∑ j : Fin 4,
      |roe_lf g ul ur nx ny j| * roe_dw g ul ur nx ny j * roe_r g ul ur nx ny ivar j)

/-- Modelled from the spec: the left one-sided physical flux F_left that the
final Roe formula calls for, which the source fails to store into fi[2] and
fi[3]. -/
noncomputable def roe_fi_spec (g : ℝ) (ul : Cons) (nx ny : ℝ) : Fin 4 → ℝ :=
  ![ul.rho * roe_vn ul nx ny,
    ul.rho * roe_vn ul nx ny * roe_vx ul + roe_p g ul * nx,
    ul.rho * roe_vn ul nx ny * roe_vy ul + roe_p g ul * ny,
    roe_vn ul nx ny * (ul.en + roe_p g ul)]

/-- Modelled from the spec: the stated Roe flux
½(F_left + F_right - Σ_k |λ_k|·Δw_k·r_k) with F_left the left one-sided
physical flux and the entropy-fixed eigenvalues. -/
noncomputable def roeFluxSpec (g : ℝ) (ul ur : Cons) (nx ny : ℝ) : Fin 4 → ℝ :=
  fun ivar => 0.5 * (roe_fi_spec g ul nx ny ivar + roe_fj g ur nx ny ivar -
    ∑ j : Fin 4,
      |roe_lf g ul ur nx ny j| * roe_dw g ul ur nx ny j * roe_r g ul ur nx ny ivar j)

/-- Modelled from the spec: get_flux guarded by the DomainError condition of
section 7 (rho <= 0 or derived p <= 0 on either side fails, none standing for
the typed failure), wrapping the Van Leer scheme. -/
noncomputable def vanLeerFluxChecked (g : ℝ) (ul ur : Cons) (nx ny : ℝ) :
    Option (Fin 4 → ℝ) :=
  if 0 < ul.rho ∧ 0 < vlp g ul ∧ 0 < ur.rho ∧ 0 < vlp g ur then
    some (vanLeerFlux g ul ur nx ny)
  else none

/-- Modelled from the spec: get_flux guarded by the DomainError condition of
section 7, wrapping the Roe scheme. -/
noncomputable def roeFluxChecked (g junk2 junk3 : ℝ) (ul ur : Cons) (nx ny : ℝ) :
    Option (Fin 4 → ℝ) :=
  if 0 < ul.rho ∧ 0 < roe_p g ul ∧ 0 < ur.rho ∧ 0 < roe_p g ur then
    some (roeFlux g junk2 junk3 ul ur nx ny)
  else none

/-- Modelled from the spec: EulerFV::compute_boundary_state (declared at
src/aspatial.hpp line 110, body not among the repository files).  Solid-wall
marker: reflected state with the normal velocity component negated, density
and energy unchanged; inflow/outflow marker: the free-stream state; unknown
marker: configuration error (none). -/
noncomputable def computeBoundaryState (solidWallId inflowOutflowId marker : ℤ)
    (uinf ins : Cons) (nx ny : ℝ) : Option Cons :=
  if marker = solidWallId then
    some ⟨ins.rho,
      ins.mx - 2 * (ins.mx * nx + ins.my * ny) * nx,
      ins.my - 2 * (ins.mx * nx + ins.my * ny) * ny,
      ins.en⟩
  else if marker = inflowOutflowId then some uinf
  else none

/-- A mesh face for the residual sweep: owner cell, neighbor cell (none for a
boundary face), face area and the numerical flux vector at the face. -/
structure Face (nc : ℕ) where
  owner : Fin nc
  neigh : Option (Fin nc)
  area : ℝ
  flux : Fin 4 → ℝ

/-- Adds a 4-vector into one cell's residual buffer. -/
def addTo {nc : ℕ} (res : Fin nc → Fin 4 → ℝ) (i : Fin nc) (v : Fin 4 → ℝ) :
    Fin nc → Fin 4 → ℝ :=
  Function.update res i (res i + v)

/-- Modelled from the spec: one face's contribution in the residual sweep --
the area-scaled flux is added to the owner cell and subtracted from the
neighbor cell; a boundary face contributes only to its owner. -/
def faceContrib {nc : ℕ} (res : Fin nc → Fin 4 → ℝ) (f : Face nc) :
    Fin nc → Fin 4 → ℝ :=
  match f.neigh with
  | some j => addTo (addTo res f.owner (f.area • f.flux)) j (-(f.area • f.flux))
  | none => addTo res f.owner (f.area • f.flux)

/-- Modelled from the spec: EulerFV::compute_residual (declared at
src/aspatial.hpp line 124, body not among the repository files).  The residual
buffer is zeroed before the face sweep, so the prior buffer contents are
discarded. -/
def computeResidual {nc : ℕ} (_prior : Fin nc → Fin 4 → ℝ) (faces : List (Face nc)) :
    Fin nc → Fin 4 → ℝ :=
  faces.foldl faceContrib (fun _ _ => 0)

/-- The total contribution of the boundary faces alone. -/
def boundarySum {nc : ℕ} (faces : List (Face nc)) : Fin 4 → ℝ :=
  (faces.map fun f => match f.neigh with
    | none => f.area • f.flux
    | some _ => 0).sum

/-! Helper lemmas. -/

theorem ite_lt_eq_max (a b : ℝ) : (if a < b then b else a) = max a b := by
  rcases lt_or_ge a b with h | h
  · rw [if_pos h, max_eq_right h.le]
  · rw [if_neg (not_lt.mpr h), max_eq_left h]

theorem abs_fix_ge (l e : ℝ) (he : 0 ≤ e) : e ≤ |if |l| < e then e else l| := by
  split
  · rw [abs_of_nonneg he]
  · next h => exact not_lt.mp h

theorem addTo_apply {nc : ℕ} (res : Fin nc → Fin 4 → ℝ) (i : Fin nc) (v : Fin 4 → ℝ) :
    addTo res i v = fun k => res k + if k = i then v else 0 := by
  funext k
  rw [addTo, Function.update_apply]
  split
  · next h => subst h; rfl
  · rw [add_zero]

theorem sum_addTo {nc : ℕ} (res : Fin nc → Fin 4 → ℝ) (i : Fin nc) (v : Fin 4 → ℝ) :
    ∑ k, addTo res i v k = (∑ k, res k) + v := by
  rw [addTo_apply, Finset.sum_add_distrib]
  congr 1
  simp

theorem sum_foldl_faces {nc : ℕ} (faces : List (Face nc)) :
    ∀ res : Fin nc → Fin 4 → ℝ,
      ∑ k, faces.foldl faceContrib res k = (∑ k, res k) + boundarySum faces := by
  induction faces with
  | nil => intro res; simp [boundarySum]
  | cons f fs ih =>
    intro res
    rw [List.foldl_cons, ih]
    obtain ⟨o, nb, a, F⟩ := f
    cases nb with
    | none =>
      rw [show faceContrib res ⟨o, none, a, F⟩ = addTo res o (a • F) from rfl, sum_addTo]
      rw [show boundarySum (⟨o, none, a, F⟩ :: fs) = a • F + boundarySum fs from rfl]
      abel
    | some j =>
      rw [show faceContrib res ⟨o, some j, a, F⟩ =
        addTo (addTo res o (a • F)) j (-(a • F)) from rfl]
      rw [sum_addTo, sum_addTo]
      rw [show boundarySum (⟨o, some j, a, F⟩ :: fs) = 0 + boundarySum fs from rfl]
      abel

/-! The claims. -/

/-- C5: in the Roe scheme, for each eigenvalue group the entropy-fix
threshold eps equals max(0, lambda minus the left characteristic speed,
right characteristic speed minus lambda); an eigenvalue is replaced by eps
exactly when its magnitude falls below eps; and consequently the magnitude
of every eigenvalue used in the flux sum is at least the eps of its group. -/
theorem C5_entropy_fix_floor (g : ℝ) (ul ur : Cons) (nx ny : ℝ) :
    (roe_eps01 ul ur nx ny =
      max 0 (max (roe_l0 ul ur nx ny - roe_vn ul nx ny)
        (roe_vn ur nx ny - roe_l0 ul ur nx ny)) ∧
     roe_eps2 g ul ur nx ny =
      max 0 (max (roe_l2 g ul ur nx ny - (roe_vn ul nx ny + roe_c g ul))
        (roe_vn ur nx ny + roe_c g ur - roe_l2 g ul ur nx ny)) ∧
     roe_eps3 g ul ur nx ny =
      max 0 (max (roe_l3 g ul ur nx ny - (roe_vn ul nx ny - roe_c g ul))
        (roe_vn ur nx ny - roe_c g ur - roe_l3 g ul ur nx ny))) ∧
    (roe_l0fix ul ur nx ny =
      (if |roe_l0 ul ur nx ny| < roe_eps01 ul ur nx ny then roe_eps01 ul ur nx ny
        else roe_l0 ul ur nx ny) ∧
     roe_l1fix ul ur nx ny =
      (if |roe_l0 ul ur nx ny| < roe_eps01 ul ur nx ny then roe_eps01 ul ur nx ny
        else roe_l0 ul ur nx ny) ∧
     roe_l2fix g ul ur nx ny =
      (if |roe_l2 g ul ur nx ny| < roe_eps2 g ul ur nx ny then roe_eps2 g ul ur nx ny
        else roe_l2 g ul ur nx ny) ∧
     roe_l3fix g ul ur nx ny =
      (if |roe_l3 g ul ur nx ny| < roe_eps3 g ul ur nx ny then roe_eps3 g ul ur nx ny
        else roe_l3 g ul ur nx ny)) ∧
    (roe_eps01 ul ur nx ny ≤ |roe_l0fix ul ur nx ny| ∧
     roe_eps01 ul ur nx ny ≤ |roe_l1fix ul ur nx ny| ∧
     roe_eps2 g ul ur nx ny ≤ |roe_l2fix g ul ur nx ny| ∧
     roe_eps3 g ul ur nx ny ≤ |roe_l3fix g ul ur nx ny|) := by
  have h1 : roe_eps01 ul ur nx ny =
      max 0 (max (roe_l0 ul ur nx ny - roe_vn ul nx ny)
        (roe_vn ur nx ny - roe_l0 ul ur nx ny)) := by
    simp only [roe_eps01]
    rw [ite_lt_eq_max, ite_lt_eq_max, max_assoc]
  have h2 : roe_eps2 g ul ur nx ny =
      max 0 (max (roe_l2 g ul ur nx ny - (roe_vn ul nx ny + roe_c g ul))
        (roe_vn ur nx ny + roe_c g ur - roe_l2 g ul ur nx ny)) := by
    simp only [roe_eps2]
    rw [ite_lt_eq_max, ite_lt_eq_max, max_assoc]
  have h3 : roe_eps3 g ul ur nx ny =
      max 0 (max (roe_l3 g ul ur nx ny - (roe_vn ul nx ny - roe_c g ul))
        (roe_vn ur nx ny - roe_c g ur - roe_l3 g ul ur nx ny)) := by
    simp only [roe_eps3]
    rw [ite_lt_eq_max, ite_lt_eq_max, max_assoc]
  have e1 : (0 : ℝ) ≤ roe_eps01 ul ur nx ny := by rw [h1]; exact le_max_left _ _
  have e2 : (0 : ℝ) ≤ roe_eps2 g ul ur nx ny := by rw [h2]; exact le_max_left _ _
  have e3 : (0 : ℝ) ≤ roe_eps3 g ul ur nx ny := by rw [h3]; exact le_max_left _ _
  exact ⟨⟨h1, h2, h3⟩, ⟨rfl, rfl, rfl, rfl⟩,
    abs_fix_ge _ _ e1, abs_fix_ge _ _ e1, abs_fix_ge _ _ e2, abs_fix_ge _ _ e3⟩

/-- C7: the residual sweep zeroes its buffers first (the result does not
depend on the prior buffer contents), each interior face adds the area-scaled
flux to its owner and subtracts the same vector from its neighbor, a boundary
face contributes only to its owner, and summing the assembled residual over
all cells leaves exactly the boundary-face contributions: the interior faces
create or destroy nothing. -/
theorem C7_conservative_assembly (nc : ℕ) (faces : List (Face nc))
    (p1 p2 res : Fin nc → Fin 4 → ℝ) (o j : Fin nc) (a : ℝ) (F : Fin 4 → ℝ) :
    computeResidual p1 faces = computeResidual p2 faces ∧
    faceContrib res ⟨o, some j, a, F⟩ = addTo (addTo res o (a • F)) j (-(a • F)) ∧
    faceContrib res ⟨o, none, a, F⟩ = addTo res o (a • F) ∧
    (∑ k, computeResidual p1 faces k) = boundarySum faces := by
  refine ⟨rfl, rfl, rfl, ?_⟩
  rw [computeResidual, sum_foldl_faces]
  have h0 : (∑ k : Fin nc, (fun (_ : Fin nc) (_ : Fin 4) => (0 : ℝ)) k) = 0 := by
    funext i
    rw [Finset.sum_apply]
    simp
  rw [h0, zero_add]

/-- C8: at a solid-wall face the Boundary State Resolver returns a ghost
state whose normal velocity is exactly the negation of the interior's, with
the tangential velocity component, the density and the total energy
unchanged. -/
theorem C8_wall_reflection (solidWallId inflowOutflowId : ℤ) (uinf ins : Cons)
    (nx ny : ℝ) (hn : nx ^ 2 + ny ^ 2 = 1) (hvn : vn ins nx ny ≠ 0) :
    ∃ bs : Cons,
      computeBoundaryState solidWallId inflowOutflowId solidWallId uinf ins nx ny =
        some bs ∧
      vn bs nx ny = -vn ins nx ny ∧
      (bs.mx * (-ny) + bs.my * nx) / bs.rho =
        (ins.mx * (-ny) + ins.my * nx) / ins.rho ∧
      bs.rho = ins.rho ∧ bs.en = ins.en := by
  refine ⟨⟨ins.rho, ins.mx - 2 * (ins.mx * nx + ins.my * ny) * nx,
      ins.my - 2 * (ins.mx * nx + ins.my * ny) * ny, ins.en⟩,
    by simp [computeBoundaryState], ?_, ?_, rfl, rfl⟩
  · show ((ins.mx - 2 * (ins.mx * nx + ins.my * ny) * nx) * nx +
      (ins.my - 2 * (ins.mx * nx + ins.my * ny) * ny) * ny) / ins.rho =
      -((ins.mx * nx + ins.my * ny) / ins.rho)
    rw [← neg_div]
    congr 1
    linear_combination (-2 * (ins.mx * nx + ins.my * ny)) * hn
  · show ((ins.mx - 2 * (ins.mx * nx + ins.my * ny) * nx) * (-ny) +
      (ins.my - 2 * (ins.mx * nx + ins.my * ny) * ny) * nx) / ins.rho =
      (ins.mx * (-ny) + ins.my * nx) / ins.rho
    congr 1
    ring

/-- Witness for C8 at the concrete wall face: marker 3 is the solid wall,
the interior state is (1, 1, 0, 1) and the normal is (1, 0). -/
theorem C8_wall_reflection_w :
    ∃ bs : Cons,
      computeBoundaryState 3 4 3 ⟨1, 0, 0, 1⟩ ⟨1, 1, 0, 1⟩ 1 0 = some bs ∧
      vn bs 1 0 = -vn ⟨1, 1, 0, 1⟩ 1 0 ∧
      (bs.mx * (-0) + bs.my * 1) / bs.rho =
        ((1 : ℝ) * (-0) + 0 * 1) / 1 ∧
      bs.rho = 1 ∧ bs.en = 1 :=
  C8_wall_reflection 3 4 ⟨1, 0, 0, 1⟩ ⟨1, 1, 0, 1⟩ 1 0 (by norm_num)
    (by rw [vn]; norm_num)

/-- C4: for a physically valid left state with normal Mach number in [-1, 1]
the Van Leer left contribution is the subsonic blending polynomial stated by
the spec, and the right contribution is the mirrored form with the sign of
the blending polynomial negated. -/
theorem C4_subsonic_blend (g : ℝ) (ul ur : Cons) (nx ny : ℝ)
    (hg : 1 < g) (hrl : 0 < ul.rho) (hpl : 0 < vlp g ul)
    (hrr : 0 < ur.rho) (hpr : 0 < vlp g ur)
    (hl1 : -1 ≤ Mn g ul nx ny) (hl2 : Mn g ul nx ny ≤ 1)
    (hr1 : -1 ≤ Mn g ur nx ny) (hr2 : Mn g ur nx ny ≤ 1) :
    fiplus g ul nx ny =
      ![ul.rho * sound g ul * (Mn g ul nx ny + 1) ^ 2 / 4,
        ul.rho * sound g ul * (Mn g ul nx ny + 1) ^ 2 / 4 *
          (ul.mx / ul.rho + nx * (2 * sound g ul - vn ul nx ny) / g),
        ul.rho * sound g ul * (Mn g ul nx ny + 1) ^ 2 / 4 *
          (ul.my / ul.rho + ny * (2 * sound g ul - vn ul nx ny) / g),
        ul.rho * sound g ul * (Mn g ul nx ny + 1) ^ 2 / 4 *
          ((((ul.mx / ul.rho) ^ 2 + (ul.my / ul.rho) ^ 2) - vn ul nx ny ^ 2) / 2 +
            ((g - 1) * vn ul nx ny + 2 * sound g ul) ^ 2 / (2 * (g ^ 2 - 1)))] ∧
    fjminus g ur nx ny =
      ![-(ur.rho * sound g ur * (Mn g ur nx ny - 1) ^ 2 / 4),
        -(ur.rho * sound g ur * (Mn g ur nx ny - 1) ^ 2 / 4) *
          (ur.mx / ur.rho + nx * (-(2 * sound g ur) - vn ur nx ny) / g),
        -(ur.rho * sound g ur * (Mn g ur nx ny - 1) ^ 2 / 4) *
          (ur.my / ur.rho + ny * (-(2 * sound g ur) - vn ur nx ny) / g),
        -(ur.rho * sound g ur * (Mn g ur nx ny - 1) ^ 2 / 4) *
          ((((ur.mx / ur.rho) ^ 2 + (ur.my / ur.rho) ^ 2) - vn ur nx ny ^ 2) / 2 +
            ((g - 1) * vn ur nx ny - 2 * sound g ur) ^ 2 / (2 * (g ^ 2 - 1)))] := by
  constructor
  · rw [fiplus, if_neg (not_lt.mpr hl1), if_neg (not_lt.mpr hl2)]
    rfl
  · rw [fjminus, if_neg (not_lt.mpr hr2), if_neg (not_lt.mpr hr1)]
    rfl

/-- Witness for C4 at the concrete subsonic state (7/5, 0, 0, 5/2) with
normal (1, 0). -/
theorem C4_subsonic_blend_w :
    fiplus (7/5) ⟨7/5, 0, 0, 5/2⟩ 1 0 =
      ![(7/5 : ℝ) * sound (7/5) ⟨7/5, 0, 0, 5/2⟩ * (Mn (7/5) ⟨7/5, 0, 0, 5/2⟩ 1 0 + 1) ^ 2 / 4,
        (7/5 : ℝ) * sound (7/5) ⟨7/5, 0, 0, 5/2⟩ * (Mn (7/5) ⟨7/5, 0, 0, 5/2⟩ 1 0 + 1) ^ 2 / 4 *
          ((0 : ℝ) / (7/5) + 1 * (2 * sound (7/5) ⟨7/5, 0, 0, 5/2⟩ - vn ⟨7/5, 0, 0, 5/2⟩ 1 0) / (7/5)),
        (7/5 : ℝ) * sound (7/5) ⟨7/5, 0, 0, 5/2⟩ * (Mn (7/5) ⟨7/5, 0, 0, 5/2⟩ 1 0 + 1) ^ 2 / 4 *
          ((0 : ℝ) / (7/5) + 0 * (2 * sound (7/5) ⟨7/5, 0, 0, 5/2⟩ - vn ⟨7/5, 0, 0, 5/2⟩ 1 0) / (7/5)),
        (7/5 : ℝ) * sound (7/5) ⟨7/5, 0, 0, 5/2⟩ * (Mn (7/5) ⟨7/5, 0, 0, 5/2⟩ 1 0 + 1) ^ 2 / 4 *
          (((((0 : ℝ) / (7/5)) ^ 2 + ((0 : ℝ) / (7/5)) ^ 2) - vn ⟨7/5, 0, 0, 5/2⟩ 1 0 ^ 2) / 2 +
            (((7/5 : ℝ) - 1) * vn ⟨7/5, 0, 0, 5/2⟩ 1 0 + 2 * sound (7/5) ⟨7/5, 0, 0, 5/2⟩) ^ 2 /
              (2 * ((7/5 : ℝ) ^ 2 - 1)))] ∧
    fjminus (7/5) ⟨7/5, 0, 0, 5/2⟩ 1 0 =
      ![-((7/5 : ℝ) * sound (7/5) ⟨7/5, 0, 0, 5/2⟩ * (Mn (7/5) ⟨7/5, 0, 0, 5/2⟩ 1 0 - 1) ^ 2 / 4),
        -((7/5 : ℝ) * sound (7/5) ⟨7/5, 0, 0, 5/2⟩ * (Mn (7/5) ⟨7/5, 0, 0, 5/2⟩ 1 0 - 1) ^ 2 / 4) *
          ((0 : ℝ) / (7/5) + 1 * (-(2 * sound (7/5) ⟨7/5, 0, 0, 5/2⟩) - vn ⟨7/5, 0, 0, 5/2⟩ 1 0) / (7/5)),
        -((7/5 : ℝ) * sound (7/5) ⟨7/5, 0, 0, 5/2⟩ * (Mn (7/5) ⟨7/5, 0, 0, 5/2⟩ 1 0 - 1) ^ 2 / 4) *
          ((0 : ℝ) / (7/5) + 0 * (-(2 * sound (7/5) ⟨7/5, 0, 0, 5/2⟩) - vn ⟨7/5, 0, 0, 5/2⟩ 1 0) / (7/5)),
        -((7/5 : ℝ) * sound (7/5) ⟨7/5, 0, 0, 5/2⟩ * (Mn (7/5) ⟨7/5, 0, 0, 5/2⟩ 1 0 - 1) ^ 2 / 4) *
          (((((0 : ℝ) / (7/5)) ^ 2 + ((0 : ℝ) / (7/5)) ^ 2) - vn ⟨7/5, 0, 0, 5/2⟩ 1 0 ^ 2) / 2 +
            (((7/5 : ℝ) - 1) * vn ⟨7/5, 0, 0, 5/2⟩ 1 0 - 2 * sound (7/5) ⟨7/5, 0, 0, 5/2⟩) ^ 2 /
              (2 * ((7/5 : ℝ) ^ 2 - 1)))] := by
  have hM : Mn (7/5) ⟨7/5, 0, 0, 5/2⟩ 1 0 = 0 := by
    rw [Mn, vn]
    norm_num
  exact C4_subsonic_blend (7/5) ⟨7/5, 0, 0, 5/2⟩ ⟨7/5, 0, 0, 5/2⟩ 1 0
    (by norm_num) (by norm_num) (by rw [vlp]; norm_num) (by norm_num)
    (by rw [vlp]; norm_num)
    (by rw [hM]; norm_num) (by rw [hM]; norm_num) (by rw [hM]; norm_num)
    (by rw [hM]; norm_num)

/-! Skew-symmetry helpers for the Van Leer scheme. -/

theorem vn_neg (u : Cons) (nx ny : ℝ) : vn u (-nx) (-ny) = -vn u nx ny := by
  rw [vn, vn, ← neg_div]
  congr 1
  ring

theorem Mn_neg (g : ℝ) (u : Cons) (nx ny : ℝ) :
    Mn g u (-nx) (-ny) = -Mn g u nx ny := by
  rw [Mn, Mn, vn_neg, neg_div]

theorem vec4_zero : (![0, 0, 0, 0] : Fin 4 → ℝ) = 0 := by
  funext i
  fin_cases i <;> rfl

theorem physFluxVL_neg (g : ℝ) (u : Cons) (nx ny : ℝ) :
    physFluxVL g u (-nx) (-ny) = -physFluxVL g u nx ny := by
  funext i
  fin_cases i <;>
    simp [physFluxVL, vn_neg] <;> ring

theorem fiplusSub_neg (g : ℝ) (u : Cons) (nx ny : ℝ) :
    fiplusSub g u (-nx) (-ny) = -fjminusSub g u nx ny := by
  funext i
  fin_cases i <;>
    simp [fiplusSub, fjminusSub, vn_neg, Mn_neg] <;> ring

theorem fjminusSub_neg (g : ℝ) (u : Cons) (nx ny : ℝ) :
    fjminusSub g u (-nx) (-ny) = -fiplusSub g u nx ny := by
  funext i
  fin_cases i <;>
    simp [fiplusSub, fjminusSub, vn_neg, Mn_neg] <;> ring

theorem fiplus_neg (g : ℝ) (u : Cons) (nx ny : ℝ) :
    fiplus g u (-nx) (-ny) = -fjminus g u nx ny := by
  rw [fiplus, fjminus, Mn_neg]
  by_cases h1 : 1 < Mn g u nx ny
  · rw [if_pos (by linarith : -Mn g u nx ny < -1), if_pos h1, vec4_zero, neg_zero]
  · by_cases h2 : Mn g u nx ny < -1
    · rw [if_neg (by simp at h1 ⊢; linarith : ¬(-Mn g u nx ny < -1)),
        if_pos (by linarith : (1 : ℝ) < -Mn g u nx ny),
        if_neg h1, if_pos h2, physFluxVL_neg]
    · rw [if_neg (by simp at h2 ⊢; linarith : ¬(-Mn g u nx ny < -1)),
        if_neg (by simp at h1 ⊢; linarith : ¬((1 : ℝ) < -Mn g u nx ny)),
        if_neg h1, if_neg h2, fiplusSub_neg]

theorem fjminus_neg (g : ℝ) (u : Cons) (nx ny : ℝ) :
    fjminus g u (-nx) (-ny) = -fiplus g u nx ny := by
  rw [fiplus, fjminus, Mn_neg]
  by_cases h2 : Mn g u nx ny < -1
  · rw [if_pos (by linarith : (1 : ℝ) < -Mn g u nx ny), if_pos h2, vec4_zero, neg_zero]
  · by_cases h1 : 1 < Mn g u nx ny
    · rw [if_neg (by simp at h2 ⊢; linarith : ¬((1 : ℝ) < -Mn g u nx ny)),
        if_pos (by linarith : -Mn g u nx ny < -1),
        if_neg h2, if_pos h1, physFluxVL_neg]
    · rw [if_neg (by simp at h2 ⊢; linarith : ¬((1 : ℝ) < -Mn g u nx ny)),
        if_neg (by simp at h1 ⊢; linarith : ¬(-Mn g u nx ny < -1)),
        if_neg h2, if_neg h1, fjminusSub_neg]

/-- C10: the Van Leer flux is skew-symmetric under exchanging the two sides
and reversing the normal: get_flux(R, L, -n) is the component-wise negation
of get_flux(L, R, n). -/
theorem C10_vanleer_skew_symmetry (g : ℝ) (ul ur : Cons) (nx ny : ℝ) :
    vanLeerFlux g ur ul (-nx) (-ny) = -vanLeerFlux g ul ur nx ny := by
  funext i
  simp only [vanLeerFlux, Pi.neg_apply]
  rw [fiplus_neg, fjminus_neg]
  simp only [Pi.neg_apply]
  ring

/-! Supersonic-reduction helpers for the Van Leer scheme. -/

theorem sound_pos (g : ℝ) (u : Cons) (hg : 0 < g) (hr : 0 < u.rho)
    (hp : 0 < vlp g u) : 0 < sound g u :=
  Real.sqrt_pos.mpr (div_pos (mul_pos hg hp) hr)

theorem rho_sound_sq (g : ℝ) (u : Cons) (hg : 0 < g) (hr : 0 < u.rho)
    (hp : 0 < vlp g u) : u.rho * sound g u ^ 2 = g * vlp g u := by
  rw [sound, Real.sq_sqrt (le_of_lt (div_pos (mul_pos hg hp) hr))]
  field_simp

theorem vlp_of_sound (g : ℝ) (u : Cons) (hg : 0 < g) (hr : 0 < u.rho)
    (hp : 0 < vlp g u) : vlp g u = u.rho * sound g u ^ 2 / g := by
  rw [eq_div_iff hg.ne']
  linarith [rho_sound_sq g u hg hr hp]

theorem en_of_sound (g : ℝ) (u : Cons) (hg : 1 < g) (hr : 0 < u.rho)
    (hp : 0 < vlp g u) :
    u.en = u.rho * sound g u ^ 2 / (g * (g - 1)) +
      (u.mx ^ 2 + u.my ^ 2) / (2 * u.rho) := by
  have hg0 : (0 : ℝ) < g := by linarith
  have h := rho_sound_sq g u hg0 hr hp
  rw [vlp] at h
  have hg1 : g - 1 ≠ 0 := by intro h0; rw [sub_eq_zero] at h0; linarith [h0.symm]
  field_simp at h ⊢
  linear_combination -2 * h

theorem fiplusSub_sonic (g : ℝ) (u : Cons) (nx ny : ℝ) (hg : 1 < g)
    (hr : 0 < u.rho) (hp : 0 < vlp g u) (hvn : vn u nx ny = sound g u) :
    fiplusSub g u nx ny = physFluxVL g u nx ny := by
  have hg0 : (0 : ℝ) < g := by linarith
  have hc := sound_pos g u hg0 hr hp
  have hM : Mn g u nx ny = 1 := by rw [Mn, hvn, div_self hc.ne']
  have hpv := vlp_of_sound g u hg0 hr hp
  have hEv := en_of_sound g u hg hr hp
  have hg1 : g - 1 ≠ 0 := by intro h0; rw [sub_eq_zero] at h0; linarith [h0.symm]
  have hg2 : g + 1 ≠ 0 := by positivity
  funext i
  fin_cases i
  · simp only [fiplusSub, physFluxVL, hM, hvn]
    norm_num
  · simp only [fiplusSub, physFluxVL, hM, hvn, hpv]
    field_simp
    ring
  · simp only [fiplusSub, physFluxVL, hM, hvn, hpv]
    field_simp
    ring
  · simp only [fiplusSub, physFluxVL, hM, hvn, hpv, hEv]
    have hgsq : g ^ 2 - 1 ≠ 0 := by
      intro h0
      have : (g - 1) * (g + 1) = 0 := by linear_combination h0
      rcases mul_eq_zero.mp this with h | h
      · exact hg1 h
      · exact hg2 h
    field_simp
    ring

theorem fiplusSub_zero (g : ℝ) (u : Cons) (nx ny : ℝ)
    (hM : Mn g u nx ny = -1) : fiplusSub g u nx ny = 0 := by
  funext i
  fin_cases i <;> simp [fiplusSub, hM]

theorem fjminusSub_sonic (g : ℝ) (u : Cons) (nx ny : ℝ) (hg : 1 < g)
    (hr : 0 < u.rho) (hp : 0 < vlp g u) (hvn : vn u nx ny = -sound g u) :
    fjminusSub g u nx ny = physFluxVL g u nx ny := by
  have hg0 : (0 : ℝ) < g := by linarith
  have hc := sound_pos g u hg0 hr hp
  have hM : Mn g u nx ny = -1 := by rw [Mn, hvn, neg_div, div_self hc.ne']
  have hpv := vlp_of_sound g u hg0 hr hp
  have hEv := en_of_sound g u hg hr hp
  have hg1 : g - 1 ≠ 0 := by intro h0; rw [sub_eq_zero] at h0; linarith [h0.symm]
  have hg2 : g + 1 ≠ 0 := by positivity
  funext i
  fin_cases i
  · simp only [fjminusSub, physFluxVL, hM, hvn]
    norm_num
  · simp only [fjminusSub, physFluxVL, hM, hvn, hpv]
    field_simp
    ring
  · simp only [fjminusSub, physFluxVL, hM, hvn, hpv]
    field_simp
    ring
  · simp only [fjminusSub, physFluxVL, hM, hvn, hpv, hEv]
    have hgsq : g ^ 2 - 1 ≠ 0 := by
      intro h0
      have : (g - 1) * (g + 1) = 0 := by linear_combination h0
      rcases mul_eq_zero.mp this with h | h
      · exact hg1 h
      · exact hg2 h
    field_simp
    ring

theorem fjminusSub_zero (g : ℝ) (u : Cons) (nx ny : ℝ)
    (hM : Mn g u nx ny = 1) : fjminusSub g u nx ny = 0 := by
  funext i
  fin_cases i <;> simp [fjminusSub, hM]

/-- C3: if the left normal Mach number is at least 1, the Van Leer left
contribution equals the left one-sided physical flux exactly; if it is at
most -1 it is exactly zero; symmetrically for the right contribution with
the roles swapped; and when both sides are supersonic outgoing the whole
flux is the left one-sided physical flux. -/
theorem C3_vanleer_supersonic (g : ℝ) (ul ur : Cons) (nx ny : ℝ)
    (hg : 1 < g) (hrl : 0 < ul.rho) (hpl : 0 < vlp g ul)
    (hrr : 0 < ur.rho) (hpr : 0 < vlp g ur) :
    (1 ≤ Mn g ul nx ny → fiplus g ul nx ny = physFluxVL g ul nx ny) ∧
    (Mn g ul nx ny ≤ -1 → fiplus g ul nx ny = 0) ∧
    (Mn g ur nx ny ≤ -1 → fjminus g ur nx ny = physFluxVL g ur nx ny) ∧
    (1 ≤ Mn g ur nx ny → fjminus g ur nx ny = 0) ∧
    (1 ≤ Mn g ul nx ny → 1 ≤ Mn g ur nx ny →
      vanLeerFlux g ul ur nx ny = physFluxVL g ul nx ny) := by
  have hg0 : (0 : ℝ) < g := by linarith
  have hcl := sound_pos g ul hg0 hrl hpl
  have hcr := sound_pos g ur hg0 hrr hpr
  have A : 1 ≤ Mn g ul nx ny → fiplus g ul nx ny = physFluxVL g ul nx ny := by
    intro h
    rcases lt_or_eq_of_le h with h1 | h1
    · rw [fiplus, if_neg (by linarith), if_pos h1]
    · rw [fiplus, if_neg (by linarith), if_neg (by linarith)]
      have hvn : vn ul nx ny = sound g ul := by
        rw [Mn] at h1
        field_simp at h1
        linarith [h1]
      exact fiplusSub_sonic g ul nx ny hg hrl hpl hvn
  have B : Mn g ul nx ny ≤ -1 → fiplus g ul nx ny = 0 := by
    intro h
    rcases lt_or_eq_of_le h with h1 | h1
    · rw [fiplus, if_pos h1, vec4_zero]
    · rw [fiplus, if_neg (by linarith), if_neg (by linarith)]
      exact fiplusSub_zero g ul nx ny h1
  have Cr : Mn g ur nx ny ≤ -1 → fjminus g ur nx ny = physFluxVL g ur nx ny := by
    intro h
    rcases lt_or_eq_of_le h with h1 | h1
    · rw [fjminus, if_neg (by linarith), if_pos h1]
    · rw [fjminus, if_neg (by linarith), if_neg (by linarith)]
      have hvn : vn ur nx ny = -sound g ur := by
        rw [Mn] at h1
        field_simp at h1
        linarith [h1]
      exact fjminusSub_sonic g ur nx ny hg hrr hpr hvn
  have D : 1 ≤ Mn g ur nx ny → fjminus g ur nx ny = 0 := by
    intro h
    rcases lt_or_eq_of_le h with h1 | h1
    · rw [fjminus, if_pos h1, vec4_zero]
    · rw [fjminus, if_neg (by linarith), if_neg (by linarith)]
      exact fjminusSub_zero g ur nx ny h1.symm
  refine ⟨A, B, Cr, D, fun h1 h2 => ?_⟩
  funext i
  rw [vanLeerFlux]
  rw [A h1, D h2]
  simp

/-- Witness for C3 at the concrete supersonic state (7/5, 14/5, 0, 53/10)
(normal Mach number 2) on both sides, with normal (1, 0). -/
theorem C3_vanleer_supersonic_w :
    ((1 : ℝ) ≤ Mn (7/5) ⟨7/5, 14/5, 0, 53/10⟩ 1 0 →
      fiplus (7/5) ⟨7/5, 14/5, 0, 53/10⟩ 1 0 =
        physFluxVL (7/5) ⟨7/5, 14/5, 0, 53/10⟩ 1 0) ∧
    (Mn (7/5) ⟨7/5, 14/5, 0, 53/10⟩ 1 0 ≤ -1 →
      fiplus (7/5) ⟨7/5, 14/5, 0, 53/10⟩ 1 0 = 0) ∧
    (Mn (7/5) ⟨7/5, 14/5, 0, 53/10⟩ 1 0 ≤ -1 →
      fjminus (7/5) ⟨7/5, 14/5, 0, 53/10⟩ 1 0 =
        physFluxVL (7/5) ⟨7/5, 14/5, 0, 53/10⟩ 1 0) ∧
    ((1 : ℝ) ≤ Mn (7/5) ⟨7/5, 14/5, 0, 53/10⟩ 1 0 →
      fjminus (7/5) ⟨7/5, 14/5, 0, 53/10⟩ 1 0 = 0) ∧
    ((1 : ℝ) ≤ Mn (7/5) ⟨7/5, 14/5, 0, 53/10⟩ 1 0 →
      (1 : ℝ) ≤ Mn (7/5) ⟨7/5, 14/5, 0, 53/10⟩ 1 0 →
      vanLeerFlux (7/5) ⟨7/5, 14/5, 0, 53/10⟩ ⟨7/5, 14/5, 0, 53/10⟩ 1 0 =
        physFluxVL (7/5) ⟨7/5, 14/5, 0, 53/10⟩ 1 0) :=
  C3_vanleer_supersonic (7/5) ⟨7/5, 14/5, 0, 53/10⟩ ⟨7/5, 14/5, 0, 53/10⟩ 1 0
    (by norm_num) (by norm_num) (by rw [vlp]; norm_num)
    (by norm_num) (by rw [vlp]; norm_num)

/-- C6 counterexample: at the non-physical state (1, 1, 0, 0), whose derived
pressure is -(1/5), the Van Leer scheme still returns a flux (some value)
while the spec's DomainError-checked model gives none: the code does not fail
on invalid states. -/
theorem C6_no_domain_error_cex :
    some (vanLeerFlux (7/5) ⟨1, 1, 0, 0⟩ ⟨1, 1, 0, 0⟩ 1 0) ≠
      vanLeerFluxChecked (7/5) ⟨1, 1, 0, 0⟩ ⟨1, 1, 0, 0⟩ 1 0 := by
  rw [vanLeerFluxChecked, if_neg]
  · exact Option.some_ne_none _
  · intro h
    have h2 := h.2.1
    rw [vlp] at h2
    norm_num at h2

/-- C6 amended: neither scheme validates its inputs.  Whenever a density or a
derived pressure is non-positive on either side, the DomainError-checked
model of the spec returns none, yet both get_flux implementations still
return a flux vector, so they disagree with the checked model exactly where
the spec demands a failure. -/
theorem C6_no_validity_check (g j2 j3 : ℝ) (ul ur : Cons) (nx ny : ℝ)
    (hvl : ul.rho ≤ 0 ∨ vlp g ul ≤ 0 ∨ ur.rho ≤ 0 ∨ vlp g ur ≤ 0)
    (hroe : ul.rho ≤ 0 ∨ roe_p g ul ≤ 0 ∨ ur.rho ≤ 0 ∨ roe_p g ur ≤ 0) :
    vanLeerFluxChecked g ul ur nx ny = none ∧
    some (vanLeerFlux g ul ur nx ny) ≠ vanLeerFluxChecked g ul ur nx ny ∧
    roeFluxChecked g j2 j3 ul ur nx ny = none ∧
    some (roeFlux g j2 j3 ul ur nx ny) ≠ roeFluxChecked g j2 j3 ul ur nx ny := by
  have h1 : vanLeerFluxChecked g ul ur nx ny = none := by
    rw [vanLeerFluxChecked, if_neg]
    intro h
    rcases hvl with h0 | h0 | h0 | h0
    · linarith [h.1]
    · linarith [h.2.1]
    · linarith [h.2.2.1]
    · linarith [h.2.2.2]
  have h2 : roeFluxChecked g j2 j3 ul ur nx ny = none := by
    rw [roeFluxChecked, if_neg]
    intro h
    rcases hroe with h0 | h0 | h0 | h0
    · linarith [h.1]
    · linarith [h.2.1]
    · linarith [h.2.2.1]
    · linarith [h.2.2.2]
  exact ⟨h1, by rw [h1]; exact Option.some_ne_none _,
    h2, by rw [h2]; exact Option.some_ne_none _⟩

/-- Witness for the C6 amended claim at the concrete invalid state
(1, 1, 0, 0) on both sides. -/
theorem C6_no_validity_check_w :
    vanLeerFluxChecked (7/5) ⟨1, 1, 0, 0⟩ ⟨1, 1, 0, 0⟩ 0 1 = none ∧
    some (vanLeerFlux (7/5) ⟨1, 1, 0, 0⟩ ⟨1, 1, 0, 0⟩ 0 1) ≠
      vanLeerFluxChecked (7/5) ⟨1, 1, 0, 0⟩ ⟨1, 1, 0, 0⟩ 0 1 ∧
    roeFluxChecked (7/5) 0 0 ⟨1, 1, 0, 0⟩ ⟨1, 1, 0, 0⟩ 0 1 = none ∧
    some (roeFlux (7/5) 0 0 ⟨1, 1, 0, 0⟩ ⟨1, 1, 0, 0⟩ 0 1) ≠
      roeFluxChecked (7/5) 0 0 ⟨1, 1, 0, 0⟩ ⟨1, 1, 0, 0⟩ 0 1 :=
  C6_no_validity_check (7/5) 0 0 ⟨1, 1, 0, 0⟩ ⟨1, 1, 0, 0⟩ 0 1
    (Or.inr (Or.inl (by rw [vlp]; norm_num)))
    (Or.inr (Or.inl (by rw [roe_p, roe_vx, roe_vy]; norm_num)))

/-! Helpers for evaluating the Roe scheme with equal left and right states:
every characteristic jump dw vanishes, so the eigenvalue sum drops out. -/

theorem roe_dw_self (g : ℝ) (u : Cons) (nx ny : ℝ) (j : Fin 4) :
    roe_dw g u u nx ny j = 0 := by
  fin_cases j <;> simp [roe_dw]

theorem roe_sum_self (g : ℝ) (u : Cons) (nx ny : ℝ) (ivar : Fin 4) :
    ∑ j : Fin 4, |roe_lf g u u nx ny j| * roe_dw g u u nx ny j *
      roe_r g u u nx ny ivar j = 0 := by
  apply Finset.sum_eq_zero
  intro j _
  rw [roe_dw_self, mul_zero, zero_mul]

theorem roeFlux_self (g j2 j3 : ℝ) (u : Cons) (nx ny : ℝ) (ivar : Fin 4) :
    roeFlux g j2 j3 u u nx ny ivar =
      0.5 * (roe_fi g j2 j3 u nx ny ivar + roe_fj g u nx ny ivar) := by
  simp only [roeFlux]
  rw [roe_sum_self]
  ring

theorem roeFluxSpec_self (g : ℝ) (u : Cons) (nx ny : ℝ) (ivar : Fin 4) :
    roeFluxSpec g u u nx ny ivar =
      0.5 * (roe_fi_spec g u nx ny ivar + roe_fj g u nx ny ivar) := by
  simp only [roeFluxSpec]
  rw [roe_sum_self]
  ring

/-- C1 (exhibit of the fi[2]/fi[3] slip): with both states equal to
U0 = (7/5, 14/5, 0, 53/10) and normal (1, 0), every characteristic jump is
zero, and the spec formula gives flux component 3 = 63/5; the code computes
0.5*(junk3 + 63/5) where junk3 is the indeterminate value read from the
uninitialized fi[3] (the source assigned fj[3] twice), so the code matches
the stated formula only when the stack garbage happens to equal 63/5. -/
theorem C1_roe_final_formula_bug (j2 j3 : ℝ) :
    roeFluxSpec (7/5) ⟨7/5, 14/5, 0, 53/10⟩ ⟨7/5, 14/5, 0, 53/10⟩ 1 0 3 = 63/5 ∧
    roeFlux (7/5) j2 j3 ⟨7/5, 14/5, 0, 53/10⟩ ⟨7/5, 14/5, 0, 53/10⟩ 1 0 3 =
      0.5 * (j3 + 63/5) ∧
    (roeFlux (7/5) j2 j3 ⟨7/5, 14/5, 0, 53/10⟩ ⟨7/5, 14/5, 0, 53/10⟩ 1 0 3 =
      roeFluxSpec (7/5) ⟨7/5, 14/5, 0, 53/10⟩ ⟨7/5, 14/5, 0, 53/10⟩ 1 0 3 ↔
      j3 = 63/5) := by
  have hfj : roe_fj (7/5) ⟨7/5, 14/5, 0, 53/10⟩ 1 0 3 = 63/5 := by
    rw [roe_fj]
    simp [roe_vn, roe_vx, roe_vy, roe_p]
    norm_num
  have hfis : roe_fi_spec (7/5) ⟨7/5, 14/5, 0, 53/10⟩ 1 0 3 = 63/5 := by
    rw [roe_fi_spec]
    simp [roe_vn, roe_vx, roe_vy, roe_p]
    norm_num
  have hfi : roe_fi (7/5) j2 j3 ⟨7/5, 14/5, 0, 53/10⟩ 1 0 3 = j3 := by
    rw [roe_fi]
    simp
  have h1 : roeFluxSpec (7/5) ⟨7/5, 14/5, 0, 53/10⟩ ⟨7/5, 14/5, 0, 53/10⟩ 1 0 3 =
      63/5 := by
    rw [roeFluxSpec_self, hfis, hfj]
    norm_num
  have h2 : roeFlux (7/5) j2 j3 ⟨7/5, 14/5, 0, 53/10⟩ ⟨7/5, 14/5, 0, 53/10⟩ 1 0 3 =
      0.5 * (j3 + 63/5) := by
    rw [roeFlux_self, hfi, hfj]
  refine ⟨h1, h2, ?_⟩
  rw [h1, h2]
  constructor
  · intro h
    linarith
  · intro h
    rw [h]
    norm_num

/-- C2 (consistency): at the valid state U0 = (7/5, 14/5, 0, 53/10) with
normal (1, 0) the Van Leer flux of (U0, U0) is exactly the physical flux of
U0, as the claim states; the Roe flux, however, returns in component 3 the
value 0.5*(junk3 + 63/5) for the indeterminate junk3 read from the
uninitialized fi[3], so it equals the physical flux component 63/5 only when
the stack garbage happens to be 63/5. -/
theorem C2_consistency_vanleer_only (j2 j3 : ℝ) :
    vanLeerFlux (7/5) ⟨7/5, 14/5, 0, 53/10⟩ ⟨7/5, 14/5, 0, 53/10⟩ 1 0 =
      physFluxVL (7/5) ⟨7/5, 14/5, 0, 53/10⟩ 1 0 ∧
    physFluxVL (7/5) ⟨7/5, 14/5, 0, 53/10⟩ 1 0 3 = 63/5 ∧
    (roeFlux (7/5) j2 j3 ⟨7/5, 14/5, 0, 53/10⟩ ⟨7/5, 14/5, 0, 53/10⟩ 1 0 3 =
      physFluxVL (7/5) ⟨7/5, 14/5, 0, 53/10⟩ 1 0 3 ↔ j3 = 63/5) := by
  have hs : sound (7/5) ⟨7/5, 14/5, 0, 53/10⟩ = 1 := by
    rw [sound, vlp]
    norm_num [Real.sqrt_one]
  have hM : Mn (7/5) ⟨7/5, 14/5, 0, 53/10⟩ 1 0 = 2 := by
    rw [Mn, vn, hs]
    norm_num
  have hA : fiplus (7/5) ⟨7/5, 14/5, 0, 53/10⟩ 1 0 =
      physFluxVL (7/5) ⟨7/5, 14/5, 0, 53/10⟩ 1 0 := by
    rw [fiplus, if_neg (by rw [hM]; norm_num), if_pos (by rw [hM]; norm_num)]
  have hB : fjminus (7/5) ⟨7/5, 14/5, 0, 53/10⟩ 1 0 = 0 := by
    rw [fjminus, if_pos (by rw [hM]; norm_num), vec4_zero]
  have hvl : vanLeerFlux (7/5) ⟨7/5, 14/5, 0, 53/10⟩ ⟨7/5, 14/5, 0, 53/10⟩ 1 0 =
      physFluxVL (7/5) ⟨7/5, 14/5, 0, 53/10⟩ 1 0 := by
    funext i
    rw [vanLeerFlux, hA, hB]
    simp
  have hpf : physFluxVL (7/5) ⟨7/5, 14/5, 0, 53/10⟩ 1 0 3 = 63/5 := by
    rw [physFluxVL]
    simp [vn, vlp]
    norm_num
  have hfi : roe_fi (7/5) j2 j3 ⟨7/5, 14/5, 0, 53/10⟩ 1 0 3 = j3 := by
    rw [roe_fi]
    simp
  have hfj : roe_fj (7/5) ⟨7/5, 14/5, 0, 53/10⟩ 1 0 3 = 63/5 := by
    rw [roe_fj]
    simp [roe_vn, roe_vx, roe_vy, roe_p]
    norm_num
  have h2 : roeFlux (7/5) j2 j3 ⟨7/5, 14/5, 0, 53/10⟩ ⟨7/5, 14/5, 0, 53/10⟩ 1 0 3 =
      0.5 * (j3 + 63/5) := by
    rw [roeFlux_self, hfi, hfj]
  refine ⟨hvl, hpf, ?_⟩
  rw [h2, hpf]
  constructor
  · intro h
    linarith
  · intro h
    rw [h]
    norm_num

/-- C9 (rotational invariance): rotating the state U0 = (7/5, 14/5, 0, 53/10)
and the normal (1, 0) by 90 degrees carries the momentum flux components by
(x, y) to (-y, x); the claim then requires flux'(1) = -flux(2) and
flux'(2) = flux(1).  Because components 2 and 3 of the Roe flux carry the
indeterminate values read from the uninitialized fi[2], fi[3], these
equalities pin the garbage to specific values (j2 = 0, j2' = 33/5) instead
of holding identically, so the claimed invariance fails for the Roe scheme. -/
theorem C9_rotation_invariance_bug (j2 j3 j2q j3q : ℝ) :
    roeFlux (7/5) j2q j3q ⟨7/5, 0, 14/5, 53/10⟩ ⟨7/5, 0, 14/5, 53/10⟩ 0 1 1 = 0 ∧
    roeFlux (7/5) j2 j3 ⟨7/5, 14/5, 0, 53/10⟩ ⟨7/5, 14/5, 0, 53/10⟩ 1 0 1 = 33/5 ∧
    (roeFlux (7/5) j2q j3q ⟨7/5, 0, 14/5, 53/10⟩ ⟨7/5, 0, 14/5, 53/10⟩ 0 1 1 =
        -roeFlux (7/5) j2 j3 ⟨7/5, 14/5, 0, 53/10⟩ ⟨7/5, 14/5, 0, 53/10⟩ 1 0 2 ↔
      j2 = 0) ∧
    (roeFlux (7/5) j2q j3q ⟨7/5, 0, 14/5, 53/10⟩ ⟨7/5, 0, 14/5, 53/10⟩ 0 1 2 =
        roeFlux (7/5) j2 j3 ⟨7/5, 14/5, 0, 53/10⟩ ⟨7/5, 14/5, 0, 53/10⟩ 1 0 1 ↔
      j2q = 33/5) := by
  have hfiq1 : roe_fi (7/5) j2q j3q ⟨7/5, 0, 14/5, 53/10⟩ 0 1 1 = 0 := by
    rw [roe_fi]
    simp [roe_vn, roe_vx, roe_vy, roe_p]
  have hfjq1 : roe_fj (7/5) ⟨7/5, 0, 14/5, 53/10⟩ 0 1 1 = 0 := by
    rw [roe_fj]
    simp [roe_vn, roe_vx, roe_vy, roe_p]
  have hfjq2 : roe_fj (7/5) ⟨7/5, 0, 14/5, 53/10⟩ 0 1 2 = 33/5 := by
    rw [roe_fj]
    simp [roe_vn, roe_vx, roe_vy, roe_p]
    norm_num
  have hfiq2 : roe_fi (7/5) j2q j3q ⟨7/5, 0, 14/5, 53/10⟩ 0 1 2 = j2q := by
    rw [roe_fi]
    simp
  have hfi1 : roe_fi (7/5) j2 j3 ⟨7/5, 14/5, 0, 53/10⟩ 1 0 1 = 33/5 := by
    rw [roe_fi]
    simp [roe_vn, roe_vx, roe_vy, roe_p]
    norm_num
  have hfj1 : roe_fj (7/5) ⟨7/5, 14/5, 0, 53/10⟩ 1 0 1 = 33/5 := by
    rw [roe_fj]
    simp [roe_vn, roe_vx, roe_vy, roe_p]
    norm_num
  have hfj2 : roe_fj (7/5) ⟨7/5, 14/5, 0, 53/10⟩ 1 0 2 = 0 := by
    rw [roe_fj]
    simp [roe_vn, roe_vx, roe_vy, roe_p]
  have hfi2 : roe_fi (7/5) j2 j3 ⟨7/5, 14/5, 0, 53/10⟩ 1 0 2 = j2 := by
    rw [roe_fi]
    simp
  have h1 : roeFlux (7/5) j2q j3q ⟨7/5, 0, 14/5, 53/10⟩ ⟨7/5, 0, 14/5, 53/10⟩ 0 1 1
      = 0 := by
    rw [roeFlux_self, hfiq1, hfjq1]
    norm_num
  have h2 : roeFlux (7/5) j2 j3 ⟨7/5, 14/5, 0, 53/10⟩ ⟨7/5, 14/5, 0, 53/10⟩ 1 0 1
      = 33/5 := by
    rw [roeFlux_self, hfi1, hfj1]
    norm_num
  have h3 : roeFlux (7/5) j2 j3 ⟨7/5, 14/5, 0, 53/10⟩ ⟨7/5, 14/5, 0, 53/10⟩ 1 0 2
      = 0.5 * j2 := by
    rw [roeFlux_self, hfi2, hfj2]
    ring
  have h4 : roeFlux (7/5) j2q j3q ⟨7/5, 0, 14/5, 53/10⟩ ⟨7/5, 0, 14/5, 53/10⟩ 0 1 2
      = 0.5 * (j2q + 33/5) := by
    rw [roeFlux_self, hfiq2, hfjq2]
  refine ⟨h1, h2, ?_, ?_⟩
  · rw [h1, h3]
    constructor
    · intro h
      linarith
    · intro h
      rw [h]
      norm_num
  · rw [h4, h2]
    constructor
    · intro h
      linarith
    · intro h
      rw [h]
      norm_num

end acfd
